import Mathlib

/-!
Shallow embedding of the pull-request reconciliation logic of the
build-pipeline repository: the GitHub handler
(`cmd/pullrequest-init/github/github.go`), the GitLab handler
(`cmd/pullrequest-init/gitlab/gitlab.go`) and the task-run output step
builder (`pkg/reconciler/v1alpha1/taskrun/resources/output_resources.go`).

Remote API calls are represented by oracles (the value the remote would
return, or the error it would fail with) and by explicit lists of issued
calls, so that the reconciliation decisions of the Go code become pure
functions.  On-disk JSON persistence (`writeJSON`, `MkdirAll`) is out of
scope per the spec and is modelled as always succeeding.
-/

set_option autoImplicit false

/-- Modelled from the spec: the canonical status-code enumeration
`types.StatusCode` (the `types` package itself is not among the sources;
the spec lists exactly these ten values and all ten appear literally in
both hosts' outbound tables). -/
inductive StatusCode where
  | unknown
  | success
  | failure
  | error
  | neutral
  | queued
  | inProgress
  | timeout
  | canceled
  | actionRequired
  deriving DecidableEq, Repr

/-- Modelled from the spec: `types.Comment` — ID (int64, zero means not yet
created remotely), Author, Text.  The opaque `Raw` payload reference is
informational only and omitted. -/
structure Comment where
  author : String
  text : String
  id : Int
  deriving DecidableEq, Repr

/-- Modelled from the spec: `types.Manifest`, a set of string keys
(comment IDs in decimal form, or label texts); membership test only. -/
abbrev Manifest := List String

/-- Modelled from the spec: `types.Status` — ID (the status context, the
dedup key), canonical Code, Description, URL. -/
structure Status where
  id : String
  code : StatusCode
  description : String
  url : String
  deriving DecidableEq, Repr

/-- Modelled from the spec: `types.GitReference`. -/
structure GitReference where
  repo : String
  branch : String
  sha : String
  deriving DecidableEq, Repr

/-- Modelled from the spec: `types.PullRequest` (raw-payload path fields
omitted: on-disk persistence is out of scope). -/
structure PullRequest where
  ptype : String
  id : Int
  head : GitReference
  base : GitReference
  labels : List String
  statuses : List Status
  comments : List Comment
  deriving DecidableEq, Repr

namespace GH

/-- `toGitHub` from github.go: outbound table from canonical status codes to
GitHub status strings.  The Go value is a map, so lookup is Option-valued. -/
def toGitHub : StatusCode → Option String
  | .unknown => some "error"
  | .success => some "success"
  | .failure => some "failure"
  | .error => some "error"
  | .neutral => some "success"
  | .queued => some "pending"
  | .inProgress => some "pending"
  | .timeout => some "error"
  | .canceled => some "error"
  | .actionRequired => some "error"

/-- `toTekton` from github.go: inbound table from GitHub status strings to
canonical status codes. -/
def toTekton : String → Option StatusCode
  | "success" => some .success
  | "failure" => some .failure
  | "error" => some .error
  | "pending" => some .queued
  | _ => none

/-- Remote label calls issued by `uploadLabels` in github.go. -/
inductive LabelCall where
  | addLabelsToIssue (labels : List String)
  | removeLabelForIssue (label : String)
  deriving DecidableEq, Repr

/-- The add-set computed by `uploadLabels` in github.go: desired labels
(`labels` map, i.e. the deduplicated raw texts) minus the current remote
labels.  The Go code iterates a map, whose order is unspecified; the model
fixes first-occurrence order (every property proved of it is
order-insensitive). -/
def createSet (desired current : List String) : List String :=
  desired.dedup.filter (fun l => decide (l ∉ current))

/-- The remove-set computed by `uploadLabels` in github.go: current remote
labels that are not desired and are recorded in the manifest. -/
def removeSet (desired current : List String) (manifest : Manifest) : List String :=
  current.dedup.filter (fun l => decide (l ∉ desired ∧ l ∈ manifest))

/-- Result of one `uploadLabels` run in github.go: the remote calls issued,
the contents of the accumulated `multierror` value `merr`, and the error
value the function actually returns. -/
structure LabelUploadResult where
  calls : List LabelCall
  merr : List String
  ret : Option String
  deriving DecidableEq, Repr

/-- `uploadLabels` from github.go.  `fetchCurrent` is the outcome of
`ListLabelsByIssue`; `addErr` the outcome of the (unconditional)
`AddLabelsToIssue` call; `removeErr l` the outcome of
`RemoveLabelForIssue` for label `l`.  Note the final line of the Go
function returns `err` — the long-since-checked list-fetch error — rather
than `merr`. -/
def uploadLabels (manifest : Manifest) (raw : List String)
    (fetchCurrent : Except String (List String))
    (addErr : Option String) (removeErr : String → Option String) :
    LabelUploadResult :=
  match fetchCurrent with
  | .error e => ⟨[], [], some e⟩
  | .ok currentList =>
    let create := createSet raw currentList
    let removes := removeSet raw currentList manifest
    { calls := LabelCall.addLabelsToIssue create :: removes.map .removeLabelForIssue
      merr := (match addErr with | some e => [e] | none => []) ++ removes.filterMap removeErr
      ret := none }

/-- Remote comment calls issued by `uploadComments` in github.go. -/
inductive CommentCall where
  | deleteComment (id : Int)
  | editComment (id : Int) (body : String)
  | createComment (body : String)
  deriving DecidableEq, Repr

/-- The `existingComments` map built by `uploadComments` in github.go:
desired comments with nonzero ID, keyed by ID; a Go map write overwrites,
so on duplicate IDs the last occurrence wins (hence `find?` on the
reversed list). -/
def desiredLookup (desired : List Comment) (i : Int) : Option Comment :=
  ((desired.filter (fun c => decide (c.id ≠ 0))).reverse).find? (fun c => decide (c.id = i))

/-- `updateExistingComments` from github.go, given a successful
`ListComments` fetch `current`: the calls issued, in order.  For each
remote comment: if no desired comment carries its ID, it is skipped when
its decimal ID is absent from the manifest and deleted otherwise; if a
desired comment carries its ID and the texts differ, it is edited.  The
call sequence does not depend on per-call failures (a failed call only
feeds `merr` and `continue`s). -/
def updateCallFor (manifest : Manifest) (desired : List Comment)
    (ec : Comment) : List CommentCall :=
  match desiredLookup desired ec.id with
  | none =>
    if toString ec.id ∈ manifest then [CommentCall.deleteComment ec.id] else []
  | some dc =>
    if dc.text ≠ ec.text then [CommentCall.editComment ec.id dc.text] else []

def updateExistingCalls (manifest : Manifest) (desired : List Comment)
    (current : List Comment) : List CommentCall :=
  current.flatMap (updateCallFor manifest desired)

/-- `createNewComments` from github.go: one `CreateComment` call per new
comment, in order, carrying its text. -/
def createNewCalls (newComments : List Comment) : List CommentCall :=
  newComments.map (fun dc => CommentCall.createComment dc.text)

/-- `uploadComments` from github.go (call trace): partition the desired
comments by `ID == 0`, reconcile the nonzero ones against the remote
list, then create the zero-ID ones. -/
def uploadCommentsCalls (manifest : Manifest) (comments : List Comment)
    (current : List Comment) : List CommentCall :=
  updateExistingCalls manifest comments current ++
    createNewCalls (comments.filter (fun c => decide (c.id = 0)))

/-- One raw status of the GitHub combined-status response, as consumed by
`getStatuses` in github.go. -/
structure StatusRaw where
  state : String
  context : String
  description : String
  targetURL : String
  deriving DecidableEq, Repr

/-- Classifier for delete calls targeting comment ID `i`. -/
def isDeleteFor (i : Int) : CommentCall → Bool
  | .deleteComment j => decide (j = i)
  | _ => false

/-- Classifier for edit calls targeting comment ID `i`. -/
def isEditFor (i : Int) : CommentCall → Bool
  | .editComment j _ => decide (j = i)
  | _ => false

/-- Classifier for comment-creation calls. -/
def isCreate : CommentCall → Bool
  | .createComment _ => true
  | _ => false

/-- The remote label set after one successful github.go `uploadLabels`
pass over remote state `current`: the current labels not removed, plus
the batched additions. -/
def labelResult (desired current : List String) (manifest : Manifest) : List String :=
  current.dedup.filter (fun l => decide (¬(l ∉ desired ∧ l ∈ manifest))) ++
    createSet desired current

/-- The loop body of `getStatuses` in github.go: translate the fetched
statuses one by one, returning at the first unmapped state. -/
def statusesFromRaw : List StatusRaw → Except String (List Status)
  | [] => Except.ok []
  | s :: rest =>
    match toTekton s.state with
    | none => Except.error ("unknown GitHub status state: " ++ s.state)
    | some code =>
      match statusesFromRaw rest with
      | Except.error e => Except.error e
      | Except.ok tail => Except.ok (⟨s.context, code, s.description, s.targetURL⟩ :: tail)

/-- `getStatuses` from github.go: on a successful fetch, translate each
remote state through the inbound table, failing the whole fetch on the
first unmapped state. -/
def getStatuses (fetch : Except String (List StatusRaw)) :
    Except String (List Status) :=
  match fetch with
  | Except.error e => Except.error e
  | Except.ok resp => statusesFromRaw resp

/-- The data `baseGitHubPullRequest` in github.go reads off the fetched
GitHub pull request. -/
structure PRData where
  id : Int
  head : GitReference
  base : GitReference
  labels : List String
  deriving DecidableEq, Repr

/-- `baseGitHubPullRequest` from github.go. -/
def baseGitHubPullRequest (pr : PRData) : PullRequest :=
  { ptype := "github", id := pr.id, head := pr.head, base := pr.base,
    labels := pr.labels, statuses := [], comments := [] }

/-- `Download` from github.go, with the three remote fetches
(`PullRequests.Get`, `GetCombinedStatus`, `ListComments`) supplied as
oracles; directory creation and raw-JSON persistence are out of scope and
modelled as succeeding.  Go's `(nil, err)` return is the `.error` case. -/
def Download (prFetch : Except String PRData)
    (statusFetch : Except String (List StatusRaw))
    (commentFetch : Except String (List Comment)) :
    Except String PullRequest :=
  match prFetch with
  | Except.error e => Except.error e
  | Except.ok gpr =>
    match getStatuses statusFetch with
    | Except.error e => Except.error e
    | Except.ok statuses =>
      match commentFetch with
      | Except.error e => Except.error e
      | Except.ok comments =>
        Except.ok { baseGitHubPullRequest gpr with
                      statuses := statuses, comments := comments }

/-- `uploadStatuses` from github.go (call trace and aggregate error):
each status is looked up in the outbound table; an unmapped code is a
per-item error, a mapped one issues one `CreateStatus` call whose outcome
`callErr` may add a per-item error. -/
def uploadStatuses (statuses : List Status)
    (callErr : Status → Option String) :
    List (String × String × String × String) × List String :=
  statuses.foldl (fun acc s =>
    match toGitHub s.code with
    | none => (acc.1, acc.2 ++ ["unknown status code"])
    | some state =>
      ((acc.1 ++ [(s.id, state, s.description, s.url)]),
        acc.2 ++ (callErr s).toList)) ([], [])

end GH

namespace GLab

/-- `toTekton` from gitlab.go: inbound table from GitLab status strings to
canonical status codes. -/
def toTekton : String → Option StatusCode
  | "pending" => some .queued
  | "running" => some .queued
  | "success" => some .success
  | "failure" => some .failure
  | "cancelled" => some .error
  | _ => none

/-- `toGitlab` from gitlab.go: outbound table from canonical status codes
to GitLab status strings. -/
def toGitlab : StatusCode → Option String
  | .unknown => some "failure"
  | .success => some "success"
  | .failure => some "failure"
  | .error => some "failure"
  | .neutral => some "success"
  | .queued => some "pending"
  | .inProgress => some "pending"
  | .timeout => some "failure"
  | .canceled => some "cancelled"
  | .actionRequired => some "failure"

/-- Go `strconv.Atoi`: optional sign followed by at least one decimal
digit (the int64 range check is immaterial here and omitted). -/
def atoi (s : String) : Option Int :=
  let chars := s.toList
  let signed : Bool × List Char :=
    match chars with
    | '-' :: rest => (true, rest)
    | '+' :: rest => (false, rest)
    | _ => (false, chars)
  if signed.2 = [] then none
  else if signed.2.all (fun c => c.isDigit) then
    let n : Nat := signed.2.foldl (fun acc d => acc * 10 + (d.toNat - '0'.toNat)) 0
    some (if signed.1 then -(n : Int) else (n : Int))
  else none

/-- Go `strings.Split` on the separator `"/"`: splits at every slash and
never returns an empty list (the empty input yields one empty field). -/
def splitSlash : List Char → List String
  | [] => [""]
  | c :: rest =>
    match splitSlash rest with
    | [] => [""]
    | h :: t =>
      if c = '/' then "" :: h :: t
      else String.mk (c :: h.data) :: t

/-- `parseGitlabURL` from gitlab.go, applied to the path component of the
already-parsed URL (`url.Parse` is the Go standard library, not this
repository; for a raw input such as `"7"` it succeeds with path `"7"`).
Go's `strings.Split` (here `splitSlash`) never returns an empty list, so
`split[last]` is safe; `split[last-1]` and the slice `split[1:last-1]`
are not, and `none` marks the runtime panic (index out of range) the Go
code hits there. -/
def parseGitlabURL (path : String) : Option (Except String (String × Int)) :=
  let split := splitSlash path.toList
  let prNum := split.getLastD ""
  match atoi prNum with
  | none => some (Except.error ("unable to parse pr as number from " ++ path))
  | some prInt =>
    if 2 ≤ split.length then
      let idx := split.length - 2
      if split.getD idx "" ≠ "merge_requests" then
        some (Except.error ("invalid gitlab url: " ++ path))
      else if 1 ≤ idx then
        some (Except.ok (String.intercalate "/" ((split.drop 1).take (idx - 1)), prInt))
      else none
    else none

/-- The full label list `uploadLabels` in gitlab.go sends: the desired
texts, followed by every current remote label that is not tracked by the
manifest. -/
def labelNames (desired current : List String) (manifest : Manifest) : List String :=
  desired ++ current.filter (fun l => decide (l ∉ manifest))

/-- Result of one `uploadLabels` run in gitlab.go: the argument of the
single wholesale `UpdateMergeRequest` call when one is issued, and the
returned error. -/
structure LabelUploadResult where
  updateCall : Option (List String)
  ret : Option String
  deriving DecidableEq, Repr

/-- `uploadLabels` from gitlab.go.  `fetchMR` is the outcome of
`GetMergeRequest` (its label list); the wholesale update is skipped when
the computed list is empty (the Labels field is omitempty, an empty
request would fail), and `updateErr` is the outcome of the update call
when issued. -/
def uploadLabels (desired : List String) (manifest : Manifest)
    (fetchMR : Except String (List String)) (updateErr : Option String) :
    LabelUploadResult :=
  match fetchMR with
  | .error e => ⟨none, some e⟩
  | .ok current =>
    let names := labelNames desired current manifest
    if names.length > 0 then ⟨some names, updateErr⟩ else ⟨none, none⟩

/-- One note of a GitLab merge-request discussion. -/
structure Note where
  id : Int
  body : String
  deriving DecidableEq, Repr

/-- One GitLab merge-request discussion: a string ID and its notes. -/
structure Discussion where
  id : String
  notes : List Note
  deriving DecidableEq, Repr

/-- Remote comment calls issued by `uploadComments` in gitlab.go. -/
inductive CommentCall where
  | deleteNote (discussion : String) (id : Int)
  | updateNote (discussion : String) (id : Int) (body : String)
  | createDiscussion (body : String)
  deriving DecidableEq, Repr

/-- `updateExistingComments` from gitlab.go, given a successful
`ListMergeRequestDiscussions` fetch: for each note of each discussion,
notes whose decimal ID is absent from the manifest are skipped; tracked
notes are deleted when no desired comment carries their ID, and updated
when one does with a different text. -/
def noteCallFor (desired : List Comment) (manifest : Manifest)
    (ed : Discussion) (ec : Note) : List CommentCall :=
  if toString ec.id ∉ manifest then []
  else
    match GH.desiredLookup desired ec.id with
    | none => [CommentCall.deleteNote ed.id ec.id]
    | some dc =>
      if dc.text ≠ ec.body then [CommentCall.updateNote ed.id ec.id dc.text]
      else []

def updateExistingCalls (desired : List Comment) (manifest : Manifest)
    (discussions : List Discussion) : List CommentCall :=
  discussions.flatMap (fun ed => ed.notes.flatMap (noteCallFor desired manifest ed))

/-- `createNewComments` from gitlab.go: one `CreateMergeRequestDiscussion`
call per new comment, in order, carrying its text. -/
def createNewCalls (newComments : List Comment) : List CommentCall :=
  newComments.map (fun dc => CommentCall.createDiscussion dc.text)

/-- `uploadComments` from gitlab.go (call trace): same partition by
`ID == 0` as the GitHub handler (the `existingComments` map is built by
the same loop, hence `GH.desiredLookup`). -/
def uploadCommentsCalls (comments : List Comment) (manifest : Manifest)
    (discussions : List Discussion) : List CommentCall :=
  updateExistingCalls comments manifest discussions ++
    createNewCalls (comments.filter (fun c => decide (c.id = 0)))

/-- One raw commit status of the GitLab response, as consumed by
`getStatuses` in gitlab.go. -/
structure StatusRaw where
  status : String
  name : String
  description : String
  targetURL : String
  deriving DecidableEq, Repr

/-- Classifier for delete calls targeting note ID `i`. -/
def isDeleteFor (i : Int) : CommentCall → Bool
  | .deleteNote _ j => decide (j = i)
  | _ => false

/-- Classifier for update calls targeting note ID `i`. -/
def isUpdateFor (i : Int) : CommentCall → Bool
  | .updateNote _ j _ => decide (j = i)
  | _ => false

/-- Classifier for discussion-creation calls. -/
def isCreate : CommentCall → Bool
  | .createDiscussion _ => true
  | _ => false

/-- The remote label set after one gitlab.go `uploadLabels` pass over
remote state `current`: the wholesale update replaces the labels with the
computed list when one is sent, and leaves them alone otherwise. -/
def labelResult (desired current : List String) (manifest : Manifest) : List String :=
  let names := labelNames desired current manifest
  if names.length > 0 then names else current

/-- The loop body of `getStatuses` in gitlab.go: translate the fetched
statuses one by one, returning at the first unmapped value (the error
text says GitHub — copied verbatim from the source). -/
def statusesFromRaw : List StatusRaw → Except String (List Status)
  | [] => Except.ok []
  | s :: rest =>
    match toTekton s.status with
    | none => Except.error ("unknown GitHub status state: " ++ s.status)
    | some code =>
      match statusesFromRaw rest with
      | Except.error e => Except.error e
      | Except.ok tail => Except.ok (⟨s.name, code, s.description, s.targetURL⟩ :: tail)

/-- `getStatuses` from gitlab.go: on a successful fetch, translate each
remote status through the inbound table, failing the whole fetch on the
first unmapped value. -/
def getStatuses (fetch : Except String (List StatusRaw)) :
    Except String (List Status) :=
  match fetch with
  | Except.error e => Except.error e
  | Except.ok resp => statusesFromRaw resp

/-- `uploadStatuses` from gitlab.go (call trace and aggregate error),
analogous to the GitHub one: unmapped codes are per-item errors, mapped
ones issue one `SetCommitStatus` call each. -/
def uploadStatuses (statuses : List Status)
    (callErr : Status → Option String) :
    List (String × String × String × String) × List String :=
  statuses.foldl (fun acc s =>
    match toGitlab s.code with
    | none => (acc.1, acc.2 ++ ["unknown status code"])
    | some state =>
      ((acc.1 ++ [(state, s.description, s.url, s.id)]),
        acc.2 ++ (callErr s).toList)) ([], [])

end GLab

namespace Res

/-- `v1alpha1.TestResult` as used by output_resources.go: Name, Format,
Path. -/
structure TestResult where
  name : String
  format : String
  path : String
  deriving DecidableEq, Repr

/-- `v1alpha1.TaskResource` as used by output_resources.go: Name, Type. -/
structure TaskResource where
  name : String
  rtype : String
  deriving DecidableEq, Repr

/-- `v1alpha1.Outputs`: result entries and resource entries. -/
structure Outputs where
  results : List TestResult
  resources : List TaskResource
  deriving DecidableEq, Repr

/-- `v1alpha1.Task`, reduced to the part output_resources.go reads:
`task.Spec.Outputs`. -/
structure Task where
  outputs : Outputs
  deriving DecidableEq, Repr

/-- `corev1.Container`, reduced to the fields output_resources.go sets. -/
structure Container where
  name : String
  image : String
  args : List String
  deriving DecidableEq, Repr

/-- `buildv1alpha1.Build`: the step list `Spec.Steps` plus an opaque
remainder `rest` standing for every other field of the build, so that
"all other fields unchanged" is statable. -/
structure Build (ρ : Type) where
  steps : List Container
  rest : ρ
  deriving DecidableEq, Repr

/-- `uploadStepName` from output_resources.go. -/
def uploadStepName : String := "build-pipeline.knative.dev/uploader"

/-- `uploadStepImage` from output_resources.go. -/
def uploadStepImage : String := "gcr.io/something/else"

/-- The flag list output_resources.go builds: one
`--result=name,format,path` per result entry, then one
`--resource=name,type` per resource entry, each in input order. -/
def outputFlags (task : Task) : List String :=
  task.outputs.results.map
      (fun o => "--result=" ++ o.name ++ "," ++ o.format ++ "," ++ o.path) ++
    task.outputs.resources.map
      (fun o => "--resource=" ++ o.name ++ "," ++ o.rtype)

/-- `AddOutputResources` from output_resources.go.  `taskRun` and `logger`
are accepted and unused, as in the Go function; the in-place append to
`build.Spec.Steps` followed by `return build` is modelled as returning
the input build value with the one appended step. -/
def AddOutputResources {ρ τ μ : Type} (build : Build ρ) (task : Task)
    (taskRun : τ) (logger : μ) : Build ρ :=
  let _ := taskRun
  let _ := logger
  { build with
    steps := build.steps ++ [⟨uploadStepName, uploadStepImage, outputFlags task⟩] }

end Res

/-- Whether an adapter operation succeeded (Go's err == nil side of a
(value, error) return). -/
def isOkE {ε α : Type} : Except ε α → Bool
  | Except.ok _ => true
  | Except.error _ => false

/-! ### Helper lemmas -/

theorem desiredLookup_eq_none {desired : List Comment} {i : Int}
    (h : ∀ d ∈ desired, d.id ≠ i) : GH.desiredLookup desired i = none := by
  unfold GH.desiredLookup
  rw [List.find?_eq_none]
  intro c hc
  simp only [List.mem_reverse, List.mem_filter] at hc
  simpa using h c hc.1

theorem desiredLookup_filter (desired : List Comment) (i : Int) :
    GH.desiredLookup (desired.filter (fun c => decide (c.id ≠ 0))) i =
      GH.desiredLookup desired i := by
  unfold GH.desiredLookup
  rw [List.filter_filter]
  simp only [Bool.and_self]

theorem gh_updateCallFor_filter (manifest : Manifest) (desired : List Comment)
    (ec : Comment) :
    GH.updateCallFor manifest (desired.filter (fun c => decide (c.id ≠ 0))) ec =
      GH.updateCallFor manifest desired ec := by
  unfold GH.updateCallFor
  rw [desiredLookup_filter]

theorem glab_noteCallFor_filter (desired : List Comment) (manifest : Manifest)
    (ed : GLab.Discussion) (ec : GLab.Note) :
    GLab.noteCallFor (desired.filter (fun c => decide (c.id ≠ 0))) manifest ed ec =
      GLab.noteCallFor desired manifest ed ec := by
  unfold GLab.noteCallFor
  rw [desiredLookup_filter]

theorem gh_update_no_create (manifest : Manifest) (desired current : List Comment) :
    (GH.updateExistingCalls manifest desired current).filter GH.isCreate = [] := by
  rw [List.filter_eq_nil_iff]
  intro c hc
  simp only [GH.updateExistingCalls, GH.updateCallFor, List.mem_flatMap] at hc
  rcases hc with ⟨ec, _, hcall⟩
  rcases hdl : GH.desiredLookup desired ec.id with _ | dc
  · simp only [hdl] at hcall
    by_cases hm : toString ec.id ∈ manifest
    · simp only [if_pos hm, List.mem_singleton] at hcall
      subst hcall
      simp [GH.isCreate]
    · simp only [if_neg hm] at hcall
      exact absurd hcall (List.not_mem_nil _)
  · simp only [hdl] at hcall
    by_cases ht : dc.text ≠ ec.text
    · simp only [if_pos ht, List.mem_singleton] at hcall
      subst hcall
      simp [GH.isCreate]
    · simp only [if_neg ht] at hcall
      exact absurd hcall (List.not_mem_nil _)

theorem glab_update_no_create (desired : List Comment) (manifest : Manifest)
    (discussions : List GLab.Discussion) :
    (GLab.updateExistingCalls desired manifest discussions).filter GLab.isCreate = [] := by
  rw [List.filter_eq_nil_iff]
  intro c hc
  simp only [GLab.updateExistingCalls, GLab.noteCallFor, List.mem_flatMap] at hc
  rcases hc with ⟨ed, _, ec, _, hcall⟩
  by_cases hm : toString ec.id ∉ manifest
  · simp only [if_pos hm] at hcall
    exact absurd hcall (List.not_mem_nil _)
  · simp only [if_neg hm] at hcall
    rcases hdl : GH.desiredLookup desired ec.id with _ | dc
    · simp only [hdl, List.mem_singleton] at hcall
      subst hcall
      simp [GLab.isCreate]
    · simp only [hdl] at hcall
      by_cases ht : dc.text ≠ ec.body
      · simp only [if_pos ht, List.mem_singleton] at hcall
        subst hcall
        simp [GLab.isCreate]
      · simp only [if_neg ht] at hcall
        exact absurd hcall (List.not_mem_nil _)

theorem gh_createSet_after_pass (desired current : List String) (manifest : Manifest) :
    GH.createSet desired (GH.labelResult desired current manifest) = [] := by
  rw [GH.createSet, List.filter_eq_nil_iff]
  intro l hl
  rw [List.mem_dedup] at hl
  simp only [decide_eq_true_eq, Classical.not_not]
  simp only [GH.labelResult, List.mem_append, List.mem_filter, List.mem_dedup,
    GH.createSet, decide_eq_true_eq]
  by_cases hc : l ∈ current
  · exact Or.inl ⟨hc, by simp [hl]⟩
  · exact Or.inr ⟨hl, hc⟩

theorem gh_removeSet_after_pass (desired current : List String) (manifest : Manifest) :
    GH.removeSet desired (GH.labelResult desired current manifest) manifest = [] := by
  rw [GH.removeSet, List.filter_eq_nil_iff]
  intro l hl
  rw [List.mem_dedup] at hl
  simp only [decide_eq_true_eq]
  rintro ⟨hnd, hm⟩
  simp only [GH.labelResult, List.mem_append, List.mem_filter, List.mem_dedup,
    GH.createSet, decide_eq_true_eq] at hl
  rcases hl with hkeep | hadd
  · exact hkeep.2 ⟨hnd, hm⟩
  · exact hnd hadd.1

theorem glab_labelNames_idem (desired current : List String) (manifest : Manifest)
    (x : String) :
    x ∈ GLab.labelNames desired (GLab.labelNames desired current manifest) manifest ↔
      x ∈ GLab.labelNames desired current manifest := by
  simp only [GLab.labelNames, List.mem_append, List.mem_filter, decide_eq_true_eq]
  tauto

theorem glab_labelResult_idem (desired current : List String) (manifest : Manifest)
    (x : String) :
    x ∈ GLab.labelResult desired (GLab.labelResult desired current manifest) manifest ↔
      x ∈ GLab.labelResult desired current manifest := by
  by_cases h : (GLab.labelNames desired current manifest).length > 0
  · have hres : GLab.labelResult desired current manifest =
        GLab.labelNames desired current manifest := by
      simp [GLab.labelResult, h]
    rw [hres]
    have hne : GLab.labelNames desired current manifest ≠ [] := List.length_pos.mp h
    obtain ⟨y, hy⟩ := List.exists_mem_of_ne_nil _ hne
    have hy2 : y ∈ GLab.labelNames desired
        (GLab.labelNames desired current manifest) manifest :=
      (glab_labelNames_idem desired current manifest y).mpr hy
    have h2 : (GLab.labelNames desired
        (GLab.labelNames desired current manifest) manifest).length > 0 :=
      List.length_pos.mpr (List.ne_nil_of_mem hy2)
    simp only [GLab.labelResult, if_pos h2]
    exact glab_labelNames_idem desired current manifest x
  · have hres : GLab.labelResult desired current manifest = current := by
      simp [GLab.labelResult, h]
    rw [hres]
    simp [GLab.labelResult, h]

theorem gh_statusesFromRaw_ok_iff (l : List GH.StatusRaw) :
    isOkE (GH.statusesFromRaw l) = true ↔
      ∀ s ∈ l, (GH.toTekton s.state).isSome = true := by
  induction l with
  | nil => simp [GH.statusesFromRaw, isOkE]
  | cons s rest ih =>
    simp only [GH.statusesFromRaw]
    cases hts : GH.toTekton s.state with
    | none => simp [isOkE, List.forall_mem_cons, hts]
    | some code =>
      cases hrest : GH.statusesFromRaw rest with
      | error e =>
        rw [hrest] at ih
        simp only [isOkE, Bool.false_eq_true, false_iff] at ih
        simp [isOkE, List.forall_mem_cons, hts, ih]
      | ok tail =>
        rw [hrest] at ih
        simp only [isOkE, true_iff] at ih
        simp [isOkE, List.forall_mem_cons, hts]
        exact ih

theorem glab_statusesFromRaw_ok_iff (l : List GLab.StatusRaw) :
    isOkE (GLab.statusesFromRaw l) = true ↔
      ∀ s ∈ l, (GLab.toTekton s.status).isSome = true := by
  induction l with
  | nil => simp [GLab.statusesFromRaw, isOkE]
  | cons s rest ih =>
    simp only [GLab.statusesFromRaw]
    cases hts : GLab.toTekton s.status with
    | none => simp [isOkE, List.forall_mem_cons, hts]
    | some code =>
      cases hrest : GLab.statusesFromRaw rest with
      | error e =>
        rw [hrest] at ih
        simp only [isOkE, Bool.false_eq_true, false_iff] at ih
        simp [isOkE, List.forall_mem_cons, hts, ih]
      | ok tail =>
        rw [hrest] at ih
        simp only [isOkE, true_iff] at ih
        simp [isOkE, List.forall_mem_cons, hts]
        exact ih

theorem gh_getStatuses_ok_iff (stF : Except String (List GH.StatusRaw)) :
    isOkE (GH.getStatuses stF) = true ↔
      ∃ l, stF = Except.ok l ∧ ∀ s ∈ l, (GH.toTekton s.state).isSome = true := by
  cases stF with
  | error e => simp [GH.getStatuses, isOkE]
  | ok resp => simp [GH.getStatuses, gh_statusesFromRaw_ok_iff]

theorem glab_getStatuses_ok_iff (glF : Except String (List GLab.StatusRaw)) :
    isOkE (GLab.getStatuses glF) = true ↔
      ∃ l, glF = Except.ok l ∧ ∀ s ∈ l, (GLab.toTekton s.status).isSome = true := by
  cases glF with
  | error e => simp [GLab.getStatuses, isOkE]
  | ok resp => simp [GLab.getStatuses, glab_statusesFromRaw_ok_iff]


theorem sum_indicator_eq_count {α : Type} (key : α → Int) (l : List α) (i : Int) :
    (l.map (fun a => if key a = i then 1 else 0)).sum = (l.map key).count i := by
  induction l with
  | nil => simp
  | cons x t ih =>
    simp only [List.map_cons, List.sum_cons, List.count_cons, ih]
    by_cases h : key x = i
    · simp [h, Nat.add_comm]
    · simp [h]

theorem gh_updateCallFor_delete_count (manifest : Manifest) (desired : List Comment)
    (i : Int) (hm : toString i ∈ manifest) (hd : ∀ d ∈ desired, d.id ≠ i)
    (ec : Comment) :
    (GH.updateCallFor manifest desired ec).countP (GH.isDeleteFor i) =
      if ec.id = i then 1 else 0 := by
  by_cases hei : ec.id = i
  · unfold GH.updateCallFor
    rw [hei, desiredLookup_eq_none hd]
    simp [hm, GH.isDeleteFor]
  · unfold GH.updateCallFor
    cases hdl : GH.desiredLookup desired ec.id with
    | none =>
      by_cases hmem : toString ec.id ∈ manifest
      · simp [hmem, GH.isDeleteFor, hei]
      · simp [hmem, hei]
    | some dc =>
      by_cases ht : dc.text ≠ ec.text
      · simp [ht, GH.isDeleteFor, hei]
      · simp [ht, hei]

theorem gh_updateCallFor_edit_count (manifest : Manifest) (desired : List Comment)
    (i : Int) (hd : ∀ d ∈ desired, d.id ≠ i) (ec : Comment) :
    (GH.updateCallFor manifest desired ec).countP (GH.isEditFor i) = 0 := by
  unfold GH.updateCallFor
  cases hdl : GH.desiredLookup desired ec.id with
  | none =>
    by_cases hmem : toString ec.id ∈ manifest
    · simp [hmem, GH.isEditFor]
    · simp [hmem]
  | some dc =>
    have hei : ec.id ≠ i := by
      intro h
      rw [h, desiredLookup_eq_none hd] at hdl
      exact Option.noConfusion hdl
    by_cases ht : dc.text ≠ ec.text
    · simp [ht, GH.isEditFor, hei]
    · simp [ht]

theorem glab_noteCallFor_delete_count (desired : List Comment) (manifest : Manifest)
    (i : Int) (hm : toString i ∈ manifest) (hd : ∀ d ∈ desired, d.id ≠ i)
    (ed : GLab.Discussion) (ec : GLab.Note) :
    (GLab.noteCallFor desired manifest ed ec).countP (GLab.isDeleteFor i) =
      if ec.id = i then 1 else 0 := by
  by_cases hei : ec.id = i
  · unfold GLab.noteCallFor
    rw [hei, desiredLookup_eq_none hd]
    simp [hm, GLab.isDeleteFor]
  · unfold GLab.noteCallFor
    by_cases hmem : toString ec.id ∉ manifest
    · simp [hmem, hei]
    · rw [if_neg hmem]
      cases hdl : GH.desiredLookup desired ec.id with
      | none => simp [GLab.isDeleteFor, hei]
      | some dc =>
        by_cases ht : dc.text ≠ ec.body
        · simp [ht, GLab.isDeleteFor, hei]
        · simp [ht, hei]

theorem glab_noteCallFor_update_count (desired : List Comment) (manifest : Manifest)
    (i : Int) (hd : ∀ d ∈ desired, d.id ≠ i)
    (ed : GLab.Discussion) (ec : GLab.Note) :
    (GLab.noteCallFor desired manifest ed ec).countP (GLab.isUpdateFor i) = 0 := by
  unfold GLab.noteCallFor
  by_cases hmem : toString ec.id ∉ manifest
  · simp [hmem]
  · rw [if_neg hmem]
    cases hdl : GH.desiredLookup desired ec.id with
    | none => simp [GLab.isUpdateFor]
    | some dc =>
      have hei : ec.id ≠ i := by
        intro h
        rw [h, desiredLookup_eq_none hd] at hdl
        exact Option.noConfusion hdl
      by_cases ht : dc.text ≠ ec.body
      · simp [ht, GLab.isUpdateFor, hei]
      · simp [ht]

/-! ### Claims -/

/-- C1 (counterexample): a remote comment whose ID is not a key of the
comments manifest is updated by the GitHub handler when the desired set
carries that same nonzero ID with a different text — an EditComment call
is issued, so the comment is not left untouched. -/
theorem c1_counterexample :
    ("5" ∉ ([] : Manifest)) ∧
    GH.updateExistingCalls [] [⟨"me", "different", 5⟩] [⟨"bot", "remote", 5⟩] =
      [GH.CommentCall.editComment 5 "different"] := by
  decide

/-- C1 (amended): a remote comment whose decimal ID is not a key of the
comments manifest never receives a delete call from either handler, and
never receives an update call from the GitLab handler; the GitHub
handler, however, does update such a comment when the desired set
contains a comment with the same nonzero ID and a different text. -/
theorem c1_amended (manifest : Manifest) (desired : List Comment)
    (current : List Comment) (discussions : List GLab.Discussion) (i : Int)
    (h : toString i ∉ manifest) :
    GH.CommentCall.deleteComment i ∉ GH.updateExistingCalls manifest desired current ∧
    (∀ did, GLab.CommentCall.deleteNote did i ∉
        GLab.updateExistingCalls desired manifest discussions) ∧
    (∀ did b, GLab.CommentCall.updateNote did i b ∉
        GLab.updateExistingCalls desired manifest discussions) := by
  refine ⟨?_, ?_, ?_⟩
  · intro hmem
    simp only [GH.updateExistingCalls, GH.updateCallFor, List.mem_flatMap] at hmem
    rcases hmem with ⟨ec, _, hcall⟩
    rcases hdl : GH.desiredLookup desired ec.id with _ | dc
    · simp only [hdl] at hcall
      by_cases hm : toString ec.id ∈ manifest
      · simp only [if_pos hm, List.mem_singleton] at hcall
        injection hcall with hii
        exact h (by rw [hii]; exact hm)
      · simp only [if_neg hm] at hcall
        exact absurd hcall (List.not_mem_nil _)
    · simp only [hdl] at hcall
      by_cases ht : dc.text ≠ ec.text
      · simp only [if_pos ht, List.mem_singleton] at hcall
        exact GH.CommentCall.noConfusion hcall
      · simp only [if_neg ht] at hcall
        exact absurd hcall (List.not_mem_nil _)
  · intro did hmem
    simp only [GLab.updateExistingCalls, GLab.noteCallFor, List.mem_flatMap] at hmem
    rcases hmem with ⟨ed, _, ec, _, hcall⟩
    by_cases hm : toString ec.id ∉ manifest
    · simp only [if_pos hm] at hcall
      exact absurd hcall (List.not_mem_nil _)
    · simp only [if_neg hm] at hcall
      rw [Classical.not_not] at hm
      rcases hdl : GH.desiredLookup desired ec.id with _ | dc
      · simp only [hdl, List.mem_singleton] at hcall
        injection hcall with hdd hii
        exact h (by rw [hii]; exact hm)
      · simp only [hdl] at hcall
        by_cases ht : dc.text ≠ ec.body
        · simp only [if_pos ht, List.mem_singleton] at hcall
          exact GLab.CommentCall.noConfusion hcall
        · simp only [if_neg ht] at hcall
          exact absurd hcall (List.not_mem_nil _)
  · intro did b hmem
    simp only [GLab.updateExistingCalls, GLab.noteCallFor, List.mem_flatMap] at hmem
    rcases hmem with ⟨ed, _, ec, _, hcall⟩
    by_cases hm : toString ec.id ∉ manifest
    · simp only [if_pos hm] at hcall
      exact absurd hcall (List.not_mem_nil _)
    · simp only [if_neg hm] at hcall
      rw [Classical.not_not] at hm
      rcases hdl : GH.desiredLookup desired ec.id with _ | dc
      · simp only [hdl, List.mem_singleton] at hcall
        exact GLab.CommentCall.noConfusion hcall
      · simp only [hdl] at hcall
        by_cases ht : dc.text ≠ ec.body
        · simp only [if_pos ht, List.mem_singleton] at hcall
          injection hcall with hdd hii
          exact h (by rw [hii]; exact hm)
        · simp only [if_neg ht] at hcall
          exact absurd hcall (List.not_mem_nil _)

/-- C1 witness: the amended theorem applied at a concrete input. -/
theorem c1_witness :
    (toString (5 : Int) ∉ ([] : Manifest)) ∧
    GH.CommentCall.deleteComment 5 ∉ GH.updateExistingCalls [] [] [] ∧
    (∀ did, GLab.CommentCall.deleteNote did 5 ∉ GLab.updateExistingCalls [] [] []) ∧
    (∀ did b, GLab.CommentCall.updateNote did 5 b ∉ GLab.updateExistingCalls [] [] []) :=
  ⟨by simp, c1_amended [] [] [] [] 5 (by simp)⟩

/-- C4: every desired comment with ID 0 yields exactly one creation call
carrying its text, in input order, for both handlers, independently of
the remote comment collection and the manifest (the right-hand sides do
not mention them); and zero-ID comments are invisible to the
update/delete reconciliation, which only sees the nonzero-ID part of the
desired set. -/
theorem c4_zero_id_comments (manifest : Manifest) (desired current : List Comment)
    (discussions : List GLab.Discussion) :
    (GH.uploadCommentsCalls manifest desired current).filter GH.isCreate =
      (desired.filter (fun c => decide (c.id = 0))).map
        (fun c => GH.CommentCall.createComment c.text) ∧
    GH.updateExistingCalls manifest desired current =
      GH.updateExistingCalls manifest (desired.filter (fun c => decide (c.id ≠ 0))) current ∧
    (GLab.uploadCommentsCalls desired manifest discussions).filter GLab.isCreate =
      (desired.filter (fun c => decide (c.id = 0))).map
        (fun c => GLab.CommentCall.createDiscussion c.text) ∧
    GLab.updateExistingCalls desired manifest discussions =
      GLab.updateExistingCalls (desired.filter (fun c => decide (c.id ≠ 0)))
        manifest discussions := by
  refine ⟨?_, ?_, ?_, ?_⟩
  · unfold GH.uploadCommentsCalls
    rw [List.filter_append, gh_update_no_create]
    simp [GH.createNewCalls, List.filter_map, Function.comp, GH.isCreate]
  · have hfx : GH.updateCallFor manifest
        (desired.filter (fun c => decide (c.id ≠ 0))) =
        GH.updateCallFor manifest desired :=
      funext (gh_updateCallFor_filter manifest desired)
    simp only [GH.updateExistingCalls, hfx]
  · unfold GLab.uploadCommentsCalls
    rw [List.filter_append, glab_update_no_create]
    simp [GLab.createNewCalls, List.filter_map, Function.comp, GLab.isCreate]
  · have hfx : GLab.noteCallFor (desired.filter (fun c => decide (c.id ≠ 0))) manifest =
        GLab.noteCallFor desired manifest :=
      funext fun ed => funext fun ec => glab_noteCallFor_filter desired manifest ed ec
    simp only [GLab.updateExistingCalls, hfx]

/-- C2 (code_bug): when the label-list fetch succeeds and a per-label
removal fails, github.go's `uploadLabels` accumulates the removal failure
in `merr` but returns `err` — the nil list-fetch error — so the error
folded into `Upload`'s aggregate is nil, not the claimed non-nil
aggregate containing the removal failure. -/
theorem c2_uploadLabels_swallows_removal_errors :
    (GH.uploadLabels ["old"] [] (Except.ok ["old"]) none
        (fun l => if l = "old" then some "removal failed" else none)).merr =
      ["removal failed"] ∧
    (GH.uploadLabels ["old"] [] (Except.ok ["old"]) none
        (fun l => if l = "old" then some "removal failed" else none)).ret =
      none := by
  decide

/-- C3 (counterexample): with an empty add-set the GitHub handler still
issues the batched `AddLabelsToIssue` call (with an empty list), and the
GitLab handler still issues its wholesale label call when the add-set
(desired minus current) is empty but the computed list is not. -/
theorem c3_counterexample :
    GH.createSet [] [] = [] ∧
    (GH.uploadLabels [] [] (Except.ok []) none (fun _ => none)).calls =
      [GH.LabelCall.addLabelsToIssue []] ∧
    (GLab.uploadLabels ["a"] ["a"] (Except.ok ["a"]) none).updateCall =
      some ["a"] := by
  decide

/-- C3 (amended): the GitHub handler issues the batched `AddLabelsToIssue`
call unconditionally, as the first label call, carrying the add-set even
when it is empty; the GitLab handler skips its wholesale label-set call
exactly when the computed label list (desired plus untracked current
labels) is empty — a guard on that full list, not on the add-set. -/
theorem c3_amended (manifest : Manifest) (raw current : List String)
    (addErr : Option String) (removeErr : String → Option String)
    (desired2 : List String) (manifest2 : Manifest) (current2 : List String)
    (updateErr : Option String) :
    (GH.uploadLabels manifest raw (Except.ok current) addErr removeErr).calls.head? =
      some (GH.LabelCall.addLabelsToIssue (GH.createSet raw current)) ∧
    ((GLab.uploadLabels desired2 manifest2 (Except.ok current2) updateErr).updateCall = none ↔
      GLab.labelNames desired2 current2 manifest2 = []) := by
  constructor
  · rfl
  · unfold GLab.uploadLabels
    by_cases h : (GLab.labelNames desired2 current2 manifest2).length > 0
    · have hne : GLab.labelNames desired2 current2 manifest2 ≠ [] :=
        List.length_pos.mp h
      simp [h, hne]
    · have hnil : GLab.labelNames desired2 current2 manifest2 = [] :=
        List.eq_nil_of_length_eq_zero (Nat.eq_zero_of_not_pos h)
      simp [h, hnil]


/-- C6 (counterexample): with desired, remote and manifest all in the
post-first-pass state, the second pass's add-set and remove-set are both
empty, yet the GitHub handler still issues a label mutation call (the
unconditional batched addition, with an empty list) — so "no label
mutation calls" fails. -/
theorem c6_counterexample :
    GH.createSet ["a"] (GH.labelResult ["a"] ["a"] []) = [] ∧
    GH.removeSet ["a"] (GH.labelResult ["a"] ["a"] []) [] = [] ∧
    (GH.uploadLabels [] ["a"] (Except.ok (GH.labelResult ["a"] ["a"] [])) none
        (fun _ => none)).calls ≠ [] := by
  decide

/-- C6 (amended): label reconciliation is idempotent in effect — when the
remote labels reflect a first pass's result, the GitHub handler's second
pass computes an empty add-set and an empty remove-set (so its only
remote call is the unconditional batched addition carrying the empty
list, and no removal call is issued), and the GitLab handler's second
pass leaves the remote label set unchanged as a set. -/
theorem c6_amended (desired current : List String) (manifest : Manifest) :
    GH.createSet desired (GH.labelResult desired current manifest) = [] ∧
    GH.removeSet desired (GH.labelResult desired current manifest) manifest = [] ∧
    (GH.uploadLabels manifest desired
        (Except.ok (GH.labelResult desired current manifest)) none
        (fun _ => none)).calls = [GH.LabelCall.addLabelsToIssue []] ∧
    (∀ x, x ∈ GLab.labelResult desired (GLab.labelResult desired current manifest)
            manifest ↔
          x ∈ GLab.labelResult desired current manifest) := by
  refine ⟨gh_createSet_after_pass desired current manifest,
    gh_removeSet_after_pass desired current manifest, ?_,
    fun x => glab_labelResult_idem desired current manifest x⟩
  simp [GH.uploadLabels, gh_createSet_after_pass, gh_removeSet_after_pass]

/-- C8: Download is all-or-nothing — the GitHub Download succeeds exactly
when the pull-request fetch, the comment fetch and the status fetch all
succeed and every fetched status state has an inbound mapping (otherwise
it is the error case, which carries no PullRequest: Go's nil model plus
non-nil error); likewise the GitLab status fetch succeeds exactly when
the remote call succeeds and every fetched status value is mapped, so one
unrecognized value fails the whole status fetch. -/
theorem c8_download_all_or_nothing (prF : Except String GH.PRData)
    (stF : Except String (List GH.StatusRaw))
    (cF : Except String (List Comment))
    (glF : Except String (List GLab.StatusRaw)) :
    (isOkE (GH.Download prF stF cF) = true ↔
      (isOkE prF = true ∧ isOkE cF = true ∧
        ∃ l, stF = Except.ok l ∧ ∀ s ∈ l, (GH.toTekton s.state).isSome = true)) ∧
    (isOkE (GLab.getStatuses glF) = true ↔
      ∃ l, glF = Except.ok l ∧ ∀ s ∈ l, (GLab.toTekton s.status).isSome = true) := by
  refine ⟨?_, glab_getStatuses_ok_iff glF⟩
  rw [show (∃ l, stF = Except.ok l ∧ ∀ s ∈ l, (GH.toTekton s.state).isSome = true) ↔
        isOkE (GH.getStatuses stF) = true from (gh_getStatuses_ok_iff stF).symm]
  simp only [GH.Download]
  cases prF with
  | error e => simp [isOkE]
  | ok gpr =>
    cases hst : GH.getStatuses stF with
    | error e => simp [isOkE]
    | ok sts =>
      cases cF with
      | error e => simp [isOkE]
      | ok comments => simp [isOkE]

/-- C7: both outbound tables send the canonical Neutral code to the remote
string "success" (so a Neutral status uploads as "success" with no
error), and both outbound tables are total on the ten canonical codes, so
the unmapped-outbound branch cannot fire for a well-typed code. -/
theorem c7_neutral_outbound :
    GH.toGitHub StatusCode.neutral = some "success" ∧
    GLab.toGitlab StatusCode.neutral = some "success" ∧
    (∀ c : StatusCode, (GH.toGitHub c).isSome ∧ (GLab.toGitlab c).isSome) ∧
    GH.uploadStatuses [⟨"ci", StatusCode.neutral, "d", "u"⟩] (fun _ => none) =
      ([("ci", "success", "d", "u")], []) ∧
    GLab.uploadStatuses [⟨"ci", StatusCode.neutral, "d", "u"⟩] (fun _ => none) =
      ([("success", "d", "u", "ci")], []) := by
  refine ⟨rfl, rfl, ?_, rfl, rfl⟩
  intro c
  cases c <;> exact ⟨rfl, rfl⟩

/-- C9 (code_bug): `parseGitlabURL` is not total — on the input `"7"`
(URL path with no slash whose only segment parses as an integer) the Go
code evaluates `split[last-1]` with `last = 0` and panics with an
index-out-of-range runtime error (`none` in the model), instead of
returning a result or error; a well-formed URL path parses normally. -/
theorem c9_parseGitlabURL_panics :
    GLab.parseGitlabURL "7" = none ∧
    GLab.parseGitlabURL "/foo/bar/merge_requests/1" =
      some (Except.ok ("foo/bar", 1)) :=
  ⟨rfl, rfl⟩

/-- C10: `AddOutputResources` returns its input build with exactly one
step appended — the uploader container, with one result flag per result
entry followed by one resource flag per resource entry, in input order —
leaving all pre-existing steps and every other build field unchanged,
for every build, task, taskRun and logger. -/
theorem c10_addOutputResources {ρ τ μ : Type} (build : Res.Build ρ)
    (task : Res.Task) (taskRun : τ) (logger : μ) :
    Res.AddOutputResources build task taskRun logger =
      { steps := build.steps ++
          [{ name := Res.uploadStepName, image := Res.uploadStepImage,
             args :=
               task.outputs.results.map
                   (fun o => "--result=" ++ o.name ++ "," ++ o.format ++ "," ++ o.path) ++
                 task.outputs.resources.map
                   (fun o => "--resource=" ++ o.name ++ "," ++ o.rtype) }],
        rest := build.rest } :=
  rfl

/-- C5: a remote comment whose decimal ID is a key of the comments
manifest, when no desired comment carries that ID, receives exactly one
delete call and zero update calls, on both handlers (remote comment IDs
taken pairwise distinct, as host-assigned IDs are). -/
theorem c5_tracked_removed_deleted (manifest : Manifest)
    (desired current : List Comment) (discussions : List GLab.Discussion) (i : Int)
    (hm : toString i ∈ manifest)
    (hd : ∀ d ∈ desired, d.id ≠ i)
    (hcur : i ∈ current.map Comment.id)
    (hnodup : (current.map Comment.id).Nodup)
    (hnote : i ∈ (discussions.flatMap GLab.Discussion.notes).map GLab.Note.id)
    (hnodup2 : ((discussions.flatMap GLab.Discussion.notes).map GLab.Note.id).Nodup) :
    ((GH.uploadCommentsCalls manifest desired current).countP (GH.isDeleteFor i) = 1 ∧
     (GH.uploadCommentsCalls manifest desired current).countP (GH.isEditFor i) = 0) ∧
    ((GLab.uploadCommentsCalls desired manifest discussions).countP
        (GLab.isDeleteFor i) = 1 ∧
     (GLab.uploadCommentsCalls desired manifest discussions).countP
        (GLab.isUpdateFor i) = 0) := by
  have hcreateGH : ∀ p : GH.CommentCall → Bool,
      (∀ b, p (GH.CommentCall.createComment b) = false) →
      (GH.createNewCalls (desired.filter (fun c => decide (c.id = 0)))).countP p = 0 := by
    intro p hp
    rw [GH.createNewCalls, List.countP_map, List.countP_eq_zero]
    intro c _
    simp [Function.comp, hp]
  have hcreateGL : ∀ p : GLab.CommentCall → Bool,
      (∀ b, p (GLab.CommentCall.createDiscussion b) = false) →
      (GLab.createNewCalls (desired.filter (fun c => decide (c.id = 0)))).countP p = 0 := by
    intro p hp
    rw [GLab.createNewCalls, List.countP_map, List.countP_eq_zero]
    intro c _
    simp [Function.comp, hp]
  have stepGHdel : List.map
      (List.countP (GH.isDeleteFor i) ∘ GH.updateCallFor manifest desired) current =
      List.map (fun ec => if Comment.id ec = i then 1 else 0) current := by
    apply List.map_congr_left
    intro ec _
    simp only [Function.comp_apply]
    exact gh_updateCallFor_delete_count manifest desired i hm hd ec
  have stepGHedit : List.map
      (List.countP (GH.isEditFor i) ∘ GH.updateCallFor manifest desired) current =
      List.map (fun _ => 0) current := by
    apply List.map_congr_left
    intro ec _
    simp only [Function.comp_apply]
    exact gh_updateCallFor_edit_count manifest desired i hd ec
  have stepGLdel : List.map
      (List.countP (GLab.isDeleteFor i) ∘ fun ed =>
        ed.notes.flatMap (GLab.noteCallFor desired manifest ed)) discussions =
      List.map (fun ed => (ed.notes.map GLab.Note.id).count i) discussions := by
    apply List.map_congr_left
    intro ed _
    simp only [Function.comp_apply]
    rw [List.countP_flatMap]
    have inner : List.map
        (List.countP (GLab.isDeleteFor i) ∘ GLab.noteCallFor desired manifest ed)
          ed.notes =
        List.map (fun ec => if GLab.Note.id ec = i then 1 else 0) ed.notes := by
      apply List.map_congr_left
      intro ec _
      simp only [Function.comp_apply]
      exact glab_noteCallFor_delete_count desired manifest i hm hd ed ec
    rw [inner]
    exact sum_indicator_eq_count GLab.Note.id ed.notes i
  have stepGLupd : List.map
      (List.countP (GLab.isUpdateFor i) ∘ fun ed =>
        ed.notes.flatMap (GLab.noteCallFor desired manifest ed)) discussions =
      List.map (fun _ => 0) discussions := by
    apply List.map_congr_left
    intro ed _
    simp only [Function.comp_apply]
    rw [List.countP_flatMap]
    have inner : List.map
        (List.countP (GLab.isUpdateFor i) ∘ GLab.noteCallFor desired manifest ed)
          ed.notes =
        List.map (fun _ => 0) ed.notes := by
      apply List.map_congr_left
      intro ec _
      simp only [Function.comp_apply]
      exact glab_noteCallFor_update_count desired manifest i hd ed ec
    rw [inner]
    simp
  refine ⟨⟨?_, ?_⟩, ?_, ?_⟩
  · rw [GH.uploadCommentsCalls, List.countP_append,
      hcreateGH (GH.isDeleteFor i) (fun b => rfl), Nat.add_zero,
      GH.updateExistingCalls, List.countP_flatMap, stepGHdel,
      sum_indicator_eq_count Comment.id current i]
    exact List.count_eq_one_of_mem hnodup hcur
  · rw [GH.uploadCommentsCalls, List.countP_append,
      hcreateGH (GH.isEditFor i) (fun b => rfl), Nat.add_zero,
      GH.updateExistingCalls, List.countP_flatMap, stepGHedit]
    simp
  · rw [GLab.uploadCommentsCalls, List.countP_append,
      hcreateGL (GLab.isDeleteFor i) (fun b => rfl), Nat.add_zero,
      GLab.updateExistingCalls, List.countP_flatMap, stepGLdel]
    calc (List.map (fun ed => (ed.notes.map GLab.Note.id).count i) discussions).sum
        = (discussions.flatMap fun ed => ed.notes.map GLab.Note.id).count i :=
          (List.count_flatMap discussions (fun ed => ed.notes.map GLab.Note.id) i).symm
      _ = ((discussions.flatMap GLab.Discussion.notes).map GLab.Note.id).count i := by
          rw [← List.map_flatMap]
      _ = 1 := List.count_eq_one_of_mem hnodup2 hnote
  · rw [GLab.uploadCommentsCalls, List.countP_append,
      hcreateGL (GLab.isUpdateFor i) (fun b => rfl), Nat.add_zero,
      GLab.updateExistingCalls, List.countP_flatMap, stepGLupd]
    simp

/-- C5 witness: the theorem applied at the spec's Scenario B input
(remote comment 42 tracked by the manifest, desired set empty). -/
theorem c5_witness :
    ((GH.uploadCommentsCalls ["42"] [] [⟨"bot", "old", 42⟩]).countP
        (GH.isDeleteFor 42) = 1 ∧
     (GH.uploadCommentsCalls ["42"] [] [⟨"bot", "old", 42⟩]).countP
        (GH.isEditFor 42) = 0) ∧
    ((GLab.uploadCommentsCalls [] ["42"] [⟨"d1", [⟨42, "old"⟩]⟩]).countP
        (GLab.isDeleteFor 42) = 1 ∧
     (GLab.uploadCommentsCalls [] ["42"] [⟨"d1", [⟨42, "old"⟩]⟩]).countP
        (GLab.isUpdateFor 42) = 0) :=
  c5_tracked_removed_deleted ["42"] [] [⟨"bot", "old", 42⟩]
    [⟨"d1", [⟨42, "old"⟩]⟩] 42 (by decide) (by simp) (by decide) (by decide)
    (by decide) (by decide)
